import Mathlib

/-!
# Verification of the trading-platform signal/backtest pipeline

Shallow embedding of the pure pipeline code of the repository:

* `src/trader/src/app/core/shared/utils/time.utils.ts` (`floorToNMinutesUTC`),
* `src/trader/src/app/core/shared/utils/bars.utils.ts` (`aggregateTo15m`,
  `isConsecutive15m`),
* `src/trader/src/app/core/shared/utils/labeler.utils.ts` (`makeNext15mLabels`),
* `src/trader/src/app/core/shared/utils/features.utils.ts` (`ema`, `rsi`,
  `atr`, `pctChange`, `buildFeatures`),
* `src/trader/src/app/core/shared/utils/cost.utils.ts` (`bps`,
  `applyPerSideCosts`),
* `src/trader/src/app/core/shared/utils/metrics.utils.ts`
  (`buildEquityCurve`, `maxDrawdown`),
* `src/trader/src/app/core/services/predictor.service.ts` (`sigmoid`, `score`),
* `src/trader/src/app/core/components/backtests/backtests.ts`
  (`runMlBacktestFromProbs`).

Modelling conventions:

* Timestamps (ISO-8601 UTC strings in the source) are modelled as natural
  numbers of epoch milliseconds.  `Date.parse`/`toISOUTC` round-trip a
  millisecond value, and lexicographic order on fixed-width Z-terminated ISO
  strings agrees with numeric order on the underlying milliseconds, so the
  source's string sorts are numeric sorts here.
* IEEE-754 doubles are modelled as rationals (`ℚ`).  JavaScript division by
  zero yields `Infinity`/`NaN`; in `ℚ` the convention `x / 0 = 0` is used and
  each place where the difference could matter is noted at the definition.
* JavaScript `Map` objects are modelled by their lookup function
  (`ℕ → Option ℚ`).
* `Array.prototype.sort` (stable) is modelled by `List.insertionSort`
  (also stable).
-/

/- `Rat.add` and friends are `@[irreducible]` in Batteries, which blocks
`decide`'s evaluation of concrete rational computations; restore the default
reducibility locally (kernel checking is unaffected). -/
attribute [local semireducible] Rat.add Rat.mul Rat.inv Rat.sub Rat.ofScientific

namespace Trading

/-- One OHLCV minute bar (`Bar1m` of `bar.model.ts`); `ts` is the bar's
timestamp in epoch milliseconds UTC. -/
structure Bar1m where
  ts : ℕ
  o : ℚ
  h : ℚ
  l : ℚ
  c : ℚ
  v : ℚ
deriving Repr, DecidableEq, Inhabited

/-- One OHLCV 15-minute bar (`Bar15m` of `bar.model.ts`); `ts15` is the
window-close timestamp in epoch milliseconds UTC. -/
structure Bar15m where
  ts15 : ℕ
  o : ℚ
  h : ℚ
  l : ℚ
  c : ℚ
  v : ℚ
deriving Repr, DecidableEq, Inhabited

/-- A 15-minute bar together with its forward-looking binary label
(`LabeledBar15m` of `label.model.ts`): `y = 1` iff the next consecutive bar
closed strictly higher. -/
structure LabeledBar15m where
  ts15 : ℕ
  o : ℚ
  h : ℚ
  l : ℚ
  c : ℚ
  v : ℚ
  y : ℕ
deriving Repr, DecidableEq, Inhabited

/-! ## time.utils.ts -/

/-- Function `floorToNMinutesUTC` of `time.utils.ts`: floor an epoch-millisecond
timestamp to the nearest `n`-minute boundary. -/
def floorToNMinutesUTC (ms : ℕ) (n : ℕ) : ℕ :=
  (ms / (n * 60000)) * (n * 60000)

/-! ## bars.utils.ts : aggregation -/

/-- The bucket key used by `aggregateTo15m`: the close time of the containing
15-minute window, i.e. `floor(ts to 15m) + 15m`. -/
def bucketClose15 (ts : ℕ) : ℕ :=
  floorToNMinutesUTC ts 15 + 15 * 60000

/-- Maximum of a list of rationals.  In the source the accumulator is seeded
with `-Infinity`; over a nonempty list that equals the list's maximum, and
`aggregateTo15m` only evaluates this on nonempty buckets (the `[]` branch is
unreachable there). -/
def listMaxD : List ℚ → ℚ
  | [] => 0
  | x :: xs => xs.foldl max x

/-- Minimum of a list of rationals (seeded with `+Infinity` in the source;
see `listMaxD`). -/
def listMinD : List ℚ → ℚ
  | [] => 0
  | x :: xs => xs.foldl min x

/-- The sorted list of distinct bucket keys of `aggregateTo15m` (the source
inserts keys into a `Map` in first-occurrence order and then sorts them;
either way this is the distinct keys in ascending order). -/
def aggKeys (minBars : List Bar1m) : List ℕ :=
  ((minBars.map fun mb => bucketClose15 mb.ts).dedup).insertionSort (· ≤ ·)

/-- The output bar of `aggregateTo15m` for bucket key `k`: the bucket's bars
sorted by timestamp, folded into first open, last close, max high, min low,
summed volume. -/
def aggBar (minBars : List Bar1m) (k : ℕ) : Bar15m :=
  let arr := (minBars.filter fun mb => bucketClose15 mb.ts = k).insertionSort
    (fun a b => a.ts ≤ b.ts)
  { ts15 := k
    o := ((arr.head?.map fun mb => mb.o).getD 0)
    h := listMaxD (arr.map fun mb => mb.h)
    l := listMinD (arr.map fun mb => mb.l)
    c := ((arr.getLast?.map fun mb => mb.c).getD 0)
    v := (arr.map fun mb => mb.v).sum }

/-- Function `aggregateTo15m` of `bars.utils.ts`: group minute bars by the close time
of their 15-minute window, sort the bucket keys ascending, and fold each
bucket into one 15-minute bar (see `aggKeys`, `aggBar`). -/
def aggregateTo15m (minBars : List Bar1m) : List Bar15m :=
  (aggKeys minBars).map (aggBar minBars)

/-- Function `isConsecutive15m` of `bars.utils.ts`: two 15-minute bars are consecutive
when their window-close timestamps are exactly 15 minutes (900000 ms) apart. -/
def isConsecutive15m (a b : Bar15m) : Bool :=
  (b.ts15 : ℤ) - (a.ts15 : ℤ) = 15 * 60000

/-! ## labeler.utils.ts -/

/-- The body of `makeNext15mLabels`'s loop at index `i`: emit `bars[i]`
labeled with whether `bars[i+1]` closed strictly higher, or nothing when the
pair is not consecutive. -/
def labelStep (bars15 : List Bar15m) (i : ℕ) : Option LabeledBar15m :=
  let cur := bars15.getD i default
  let nxt := bars15.getD (i + 1) default
  if isConsecutive15m cur nxt then
    some { ts15 := cur.ts15, o := cur.o, h := cur.h, l := cur.l, c := cur.c,
           v := cur.v, y := if nxt.c > cur.c then 1 else 0 }
  else
    none

/-- Function `makeNext15mLabels` of `labeler.utils.ts`: for `i` from `0` to
`bars.length - 2`, emit `bars[i]` labeled with whether `bars[i+1]` closed
strictly higher, skipping non-consecutive pairs (see `labelStep`). -/
def makeNext15mLabels (bars15 : List Bar15m) : List LabeledBar15m :=
  (List.range (bars15.length - 1)).filterMap (labelStep bars15)

/-- Reference labeler, following the spec's words (§4.2): walk adjacent pairs
`(bars[i], bars[i+1])`; when the window-close gap is exactly one nominal
period emit `bars[i]` with label `1` iff the next close is strictly greater,
otherwise skip the pair; the final bar is never emitted. -/
def labelSpec : List Bar15m → List LabeledBar15m
  | [] => []
  | [_] => []
  | a :: b :: rest =>
    (if (b.ts15 : ℤ) - (a.ts15 : ℤ) = 15 * 60000 then
      [{ ts15 := a.ts15, o := a.o, h := a.h, l := a.l, c := a.c, v := a.v,
         y := if b.c > a.c then 1 else 0 }]
    else []) ++ labelSpec (b :: rest)

/-! ## features.utils.ts -/

/-- The fixed feature schema produced by `buildFeatures` (the `feats` record
of `feature-vector.model.ts`). -/
structure Feats where
  r1 : ℚ
  r5 : ℚ
  r15 : ℚ
  r60 : ℚ
  rsi14 : ℚ
  emaGap9 : ℚ
  emaGap21 : ℚ
  atr14 : ℚ
  spy15m : ℚ
  mod : ℕ
deriving Repr, DecidableEq, Inhabited

/-- A feature vector attached to one bar (`FeatureVector` of
`feature-vector.model.ts`). -/
structure FeatureVector where
  ts15 : ℕ
  symbol : String
  feats : Feats
deriving Repr, DecidableEq, Inhabited

/-- Function `ema` of `features.utils.ts`: `null` when fewer than `period` values are
available, else seed with `values[0]` and fold
`e = v * k + e * (1 - k)` with `k = 2 / (period + 1)` over the rest. -/
def ema (values : List ℚ) (period : ℕ) : Option ℚ :=
  if values.length < period then none
  else
    let k : ℚ := 2 / ((period : ℚ) + 1)
    some ((values.drop 1).foldl (fun e v => v * k + e * (1 - k)) (values.headD 0))

/-- Function `rsi` of `features.utils.ts`: `null` when fewer than `period + 1` values
are available; else sum the positive diffs (`gains`) and the negated negative
diffs (`losses`) over the trailing `period` diffs, and return `100` when
`avgL = 0`, else `100 - 100 / (1 + avgG / avgL)`. -/
def rsi (values : List ℚ) (period : ℕ) : Option ℚ :=
  if values.length < period + 1 then none
  else
    let diffs := (List.range period).map fun j =>
      let idx := values.length - period + j
      values.getD idx 0 - values.getD (idx - 1) 0
    let gains := (diffs.filter fun d => 0 ≤ d).sum
    let losses := -((diffs.filter fun d => d < 0).sum)
    let avgG := gains / (period : ℚ)
    let avgL := losses / (period : ℚ)
    if avgL = 0 then some 100 else some (100 - 100 / (1 + avgG / avgL))

/-- Function `atr` of `features.utils.ts`: `null` when fewer than `period + 1` bars
are available; else the mean of the trailing `period` true ranges
`max (h - l) (max |h - prevClose| |l - prevClose|)`. -/
def atr (highs lows closes : List ℚ) (period : ℕ) : Option ℚ :=
  let n := highs.length
  if n < period + 1 then none
  else
    let trs := (List.range period).map fun j =>
      let i := n - period + j
      let hi := highs.getD i 0
      let lo := lows.getD i 0
      let prevClose := closes.getD (i - 1) 0
      max (hi - lo) (max |hi - prevClose| |lo - prevClose|)
    some (trs.sum / (trs.length : ℚ))

/-- Function `pctChange` of `features.utils.ts`: `b === 0 ? 0 : a / b - 1`. -/
def pctChange (a b : ℚ) : ℚ :=
  if b = 0 then 0 else a / b - 1

/-- The body of `buildFeatures`'s loop at index `i = hist.length - 1`, given
the history `hist = labeled[0..i]` (the source's `closes`/`highs`/`lows`
arrays contain exactly the fields of this prefix at that point, and
`labeled[i-1]` is `hist[i-1]`).  The optional SPY context `Map` is modelled
by its lookup function; the source's lookup of the key `''` when `i = 0`
is modelled as a failing lookup. -/
def featAt (symbol : String) (ctx : Option (ℕ → Option ℚ))
    (hist : List LabeledBar15m) : FeatureVector :=
  let i := hist.length - 1
  let row := hist.getD i default
  let closes := hist.map fun b => b.c
  let highs := hist.map fun b => b.h
  let lows := hist.map fun b => b.l
  let r1 := if 1 ≤ i then pctChange (closes.getD i 0) (closes.getD (i - 1) 0) else 0
  let r5 := if 5 ≤ i then pctChange (closes.getD i 0) (closes.getD (i - 5) 0) else 0
  let r15 := if 15 ≤ i then pctChange (closes.getD i 0) (closes.getD (i - 15) 0) else 0
  let r60 := if 60 ≤ i then pctChange (closes.getD i 0) (closes.getD (i - 60) 0) else 0
  let ema9 := ema closes 9
  let ema21 := ema closes 21
  let rsi14 := rsi closes 14
  let atr14 := atr highs lows closes 14
  let emaGap9 := match ema9 with
    | some e => closes.getD i 0 - e
    | none => 0
  let emaGap21 := match ema21 with
    | some e => closes.getD i 0 - e
    | none => 0
  let spy15m := match ctx with
    | none => 0
    | some m =>
      match m row.ts15, (if 1 ≤ i then m (hist.getD (i - 1) default).ts15 else none) with
      | some spyC, some prevSpy => pctChange spyC prevSpy
      | _, _ => 0
  let modMin := row.ts15 / 60000 % 1440
  { ts15 := row.ts15, symbol := symbol,
    feats := { r1 := r1, r5 := r5, r15 := r15, r60 := r60,
               rsi14 := rsi14.getD 50, emaGap9 := emaGap9, emaGap21 := emaGap21,
               atr14 := atr14.getD 0, spy15m := spy15m, mod := modMin } }

/-- Function `buildFeatures` of `features.utils.ts`: one feature vector per labeled
bar, the one at index `i` computed from the history `labeled[0..i]`
(see `featAt`). -/
def buildFeatures (labeled : List LabeledBar15m) (symbol : String)
    (ctx : Option (ℕ → Option ℚ)) : List FeatureVector :=
  (List.range labeled.length).map fun i => featAt symbol ctx (labeled.take (i + 1))

/-! ## cost.utils.ts -/

/-- Function `bps` of `cost.utils.ts`: convert basis points to a fraction. -/
def bps (n : ℚ) : ℚ :=
  n / 10000

/-- Function `applyPerSideCosts` of `cost.utils.ts`: subtract entry and exit costs
(in bps) from a fractional return. -/
def applyPerSideCosts (rawReturn entryBps exitBps : ℚ) : ℚ :=
  rawReturn - (bps entryBps + bps exitBps)

/-! ## metrics.utils.ts -/

/-- The running equity values of `buildEquityCurve`: starting from
`startEquity`, multiply by `1 + r` for each return. -/
def equitySeq (startEquity : ℚ) : List ℚ → List ℚ
  | [] => []
  | r :: rest =>
    let eq := startEquity * (1 + r)
    eq :: equitySeq eq rest

/-- Function `buildEquityCurve` of `metrics.utils.ts`: the compounded equity value
after each return, paired with the matching timestamp. -/
def buildEquityCurve (ts : List ℕ) (returns : List ℚ) (startEquity : ℚ) :
    List (ℕ × ℚ) :=
  (List.range returns.length).map fun i =>
    (ts.getD i 0, (equitySeq startEquity returns).getD i 0)

/-- One step of `maxDrawdown`'s loop: update the running peak (the source
seeds it with `-Infinity`, modelled as `none`), then the running maximum of
`(peak - e) / peak`.  When `peak = 0` the source's division produces
`NaN`/`Infinity`, filtered out by the final `isFinite` guard; `ℚ`'s
convention `x / 0 = 0` likewise leaves `mdd` unchanged at that step. -/
def mddStep (st : Option ℚ × ℚ) (e : ℚ) : Option ℚ × ℚ :=
  let peak := match st.1 with
    | none => e
    | some p => if e > p then e else p
  let dd := (peak - e) / peak
  (some peak, if dd > st.2 then dd else st.2)

/-- Function `maxDrawdown` of `metrics.utils.ts`: the maximum fractional decline from
a prior peak of the equity list. -/
def maxDrawdown (equity : List ℚ) : ℚ :=
  (equity.foldl mddStep (none, 0)).2

/-! ## predictor.service.ts : scorer -/

/-- Method `PredictorService.score`: the hand-tuned linear combination of the
features.  The source reads the feature map with `?? default` fallbacks;
the `Feats` record always carries every field, so the fallbacks never fire. -/
def score (f : Feats) : ℚ :=
  0.8 * f.r5 + 0.55 * f.r15 + 0.25 * f.r60 + 0.2 * f.spy15m +
    0.1 * ((f.rsi14 - 50) / 50) + 0.08 * f.emaGap9 + 0.04 * f.emaGap21 -
    0.02 * f.atr14 + 0.15 * f.r1

/-- Method `PredictorService.sigmoid`: the logistic squashing `1 / (1 + e^(-x))`,
over the reals. -/
noncomputable def sigmoid (x : ℝ) : ℝ :=
  1 / (1 + Real.exp (-x))

/-! ## backtests.ts : runner -/

/-- The `Metrics` record of `metrics.model.ts`, restricted to the fields the
verified claims are about.  `cagr` and `sharpe` (which take irrational real
values via `Math.pow`/`Math.sqrt`) are not modelled; no claim mentions them. -/
structure Metrics where
  maxDd : ℚ
  hitRate : ℚ
  turnover : ℚ
deriving Repr, DecidableEq, Inhabited

/-- The `BacktestSummary` record of `backtest.models.ts`. -/
structure BacktestSummary where
  symbol : String
  trades : ℕ
  winRate : ℚ
  pnlPct : ℚ
deriving Repr, DecidableEq, Inhabited

/-- The indices the loop of `runMlBacktestFromProbs` walks: `i` from `0`
below `min labeled.length probs.length`, breaking at the first `i` with no
exit bar `bars[i+1]`. -/
def consideredIdx (bars15 : List Bar15m) (nLab nProb : ℕ) : List ℕ :=
  (List.range (min nLab nProb)).takeWhile fun i => i + 1 < bars15.length

/-- The indices at which `runMlBacktestFromProbs` executes a trade: the
walked indices whose probability reaches the long threshold. -/
def tradeIdx (bars15 : List Bar15m) (labeled : List LabeledBar15m)
    (probs : List ℚ) (longTh : ℚ) : List ℕ :=
  (consideredIdx bars15 labeled.length probs.length).filter fun i =>
    probs.getD i 0 ≥ longTh

/-- The net return of the trade entered at index `i`: gross return
`bars[i+1].close / bars[i].close - 1` minus the per-side costs. -/
def stepReturn (bars15 : List Bar15m) (entryBps exitBps : ℚ) (i : ℕ) : ℚ :=
  let entry := (bars15.getD i default).c
  let exitC := (bars15.getD (i + 1) default).c
  applyPerSideCosts (exitC / entry - 1) entryBps exitBps

/-- Function `runMlBacktestFromProbs` of `backtests.ts`: simulate the one-bar-hold
long-only strategy over the precomputed probabilities and assemble the
summary row and metrics. -/
def runMlBacktestFromProbs (symbol : String) (bars15 : List Bar15m)
    (labeled : List LabeledBar15m) (probs : List ℚ)
    (entryBps exitBps longTh : ℚ) : BacktestSummary × Metrics :=
  let idx := tradeIdx bars15 labeled probs longTh
  let stepReturns := idx.map (stepReturn bars15 entryBps exitBps)
  let stepTs := idx.map fun i => (bars15.getD (i + 1) default).ts15
  let trades := idx.length
  let wins := (stepReturns.filter fun r => r > 0).length
  let curve := buildEquityCurve stepTs stepReturns 1
  let metrics : Metrics :=
    { maxDd := maxDrawdown (curve.map fun p => p.2)
      hitRate := if trades ≠ 0 then (wins : ℚ) / (trades : ℚ) else 0
      turnover := (trades : ℚ) / (max stepReturns.length 1 : ℕ) }
  let pnlPct := (match curve.getLast? with
    | some p => p.2
    | none => 1) - 1
  ({ symbol := symbol, trades := trades, winRate := metrics.hitRate,
     pnlPct := pnlPct }, metrics)

/-! ## Derived notions named by the claims -/

/-- The number of bar indices the runner walks, per the spec's
`totalBarsConsidered`. -/
def totalBarsConsidered (bars15 : List Bar15m) (nLab nProb : ℕ) : ℕ :=
  (consideredIdx bars15 nLab nProb).length

/-- Reinterpret an aggregated 15-minute bar as an input bar of the
aggregator (the window-close timestamp becomes the input timestamp), for
feeding the aggregator's output back into it. -/
def asBar1m (b : Bar15m) : Bar1m :=
  { ts := b.ts15, o := b.o, h := b.h, l := b.l, c := b.c, v := b.v }

/-- Shift a 15-minute bar's window-close key forward by one 15-minute
period, keeping its OHLCV values. -/
def shiftPeriod (b : Bar15m) : Bar15m :=
  { b with ts15 := b.ts15 + 15 * 60000 }

/-! ## Concrete inputs used by counterexamples and witnesses -/

/-- A flat 15-minute bar at timestamp `t` with all prices `x`. -/
def exBar (t : ℕ) (x : ℚ) : Bar15m :=
  { ts15 := t, o := x, h := x, l := x, c := x, v := 1 }

/-- A flat labeled bar with all prices `x`. -/
def exLBar (t : ℕ) (x : ℚ) : LabeledBar15m :=
  { ts15 := t, o := x, h := x, l := x, c := x, v := 1, y := 0 }

/-- Three consecutive flat 15-minute bars. -/
def bars3 : List Bar15m :=
  [exBar 900000 1, exBar 1800000 1, exBar 2700000 1]

/-- The labels of `bars3`. -/
def lab3 : List LabeledBar15m :=
  makeNext15mLabels bars3

/-- Three consecutive bars whose closes are `1, 3, 0`. -/
def barsDd : List Bar15m :=
  [exBar 900000 1, exBar 1800000 3, exBar 2700000 0]

/-- The labels of `barsDd`. -/
def labDd : List LabeledBar15m :=
  makeNext15mLabels barsDd

/-- Nine labeled bars whose closes are `1, 2, 2, 2, 2, 2, 2, 2, 2`. -/
def lab9 : List LabeledBar15m :=
  [exLBar 0 1, exLBar 900000 2, exLBar 1800000 2, exLBar 2700000 2,
   exLBar 3600000 2, exLBar 4500000 2, exLBar 5400000 2, exLBar 6300000 2,
   exLBar 7200000 2]

/-- List `lab9` extended with one extra bar closing at `3`. -/
def lab9a : List LabeledBar15m :=
  lab9 ++ [exLBar 8100000 3]

/-- List `lab9` extended with one extra bar closing at `7`. -/
def lab9b : List LabeledBar15m :=
  lab9 ++ [exLBar 8100000 7]

/-- Two labeled bars, the first with close `0`. -/
def labZ : List LabeledBar15m :=
  [exLBar 0 0, exLBar 900000 5]

/-- A single input minute bar at epoch `0`. -/
def mb0 : List Bar1m :=
  [{ ts := 0, o := 1, h := 2, l := 1 / 2, c := 3 / 2, v := 5 }]

end Trading

/-! ## Helper lemmas -/

namespace Trading

/-- Reading inside a `take` prefix agrees with reading the original list. -/
theorem getD_take_of_lt {α : Type} (L : List α) (k j : ℕ) (d : α) (h : j < k) :
    (L.take k).getD j d = L.getD j d := by
  rw [List.getD_eq_getElem?_getD, List.getD_eq_getElem?_getD,
    List.getElem?_take_of_lt h]

/-- The feature vector at index `i` is `featAt` of the prefix
`labeled[0..i]`. -/
theorem buildFeatures_getD (l : List LabeledBar15m) (s : String)
    (ctx : Option (ℕ → Option ℚ)) (i : ℕ) (h : i < l.length) :
    (buildFeatures l s ctx).getD i default = featAt s ctx (l.take (i + 1)) := by
  unfold buildFeatures
  rw [List.getD_eq_getElem?_getD, List.getElem?_map, List.getElem?_range h]
  rfl

/-- With fewer than 9 closes in the history, the `emaGap9` feature is the
sentinel `0`. -/
theorem featAt_emaGap9_of_short (s : String) (ctx : Option (ℕ → Option ℚ))
    (hist : List LabeledBar15m) (h : hist.length < 9) :
    (featAt s ctx hist).feats.emaGap9 = 0 := by
  unfold featAt
  simp only [ema]
  rw [if_pos (by simpa using h)]

/-- With fewer than 15 closes in the history, the `rsi14` feature is the
sentinel `50`. -/
theorem featAt_rsi14_of_short (s : String) (ctx : Option (ℕ → Option ℚ))
    (hist : List LabeledBar15m) (h : hist.length < 15) :
    (featAt s ctx hist).feats.rsi14 = 50 := by
  unfold featAt
  simp only [rsi]
  rw [if_pos (by simpa using h)]
  rfl

/-! ## C2 : feature-builder sentinels -/

/-- Claim C2 (amended): the feature builder emits the neutral sentinels
exactly while the history is too short for the indicator: `emaGap9 = 0` at
every index `i < 8` (not `i < 9` as claimed: the source's `ema` is live as
soon as 9 closes exist, i.e. from `i = 8` on), and `rsi14 = 50` at every
index `i < 14`. -/
theorem C2_sentinels (l : List LabeledBar15m) (s : String)
    (ctx : Option (ℕ → Option ℚ)) (i : ℕ) (hi : i < l.length) :
    (i < 8 → ((buildFeatures l s ctx).getD i default).feats.emaGap9 = 0) ∧
      (i < 14 → ((buildFeatures l s ctx).getD i default).feats.rsi14 = 50) := by
  rw [buildFeatures_getD l s ctx i hi]
  constructor
  · intro h8
    exact featAt_emaGap9_of_short s ctx _ (by
      rw [List.length_take]
      omega)
  · intro h14
    exact featAt_rsi14_of_short s ctx _ (by
      rw [List.length_take]
      omega)

/-- Witness for C2: at index 7 of a 9-bar sequence both sentinels hold. -/
theorem C2_witness :
    7 < lab9.length ∧
      ((buildFeatures lab9 "AAPL" none).getD 7 default).feats.emaGap9 = 0 ∧
      ((buildFeatures lab9 "AAPL" none).getD 7 default).feats.rsi14 = 50 :=
  ⟨by decide, (C2_sentinels lab9 "AAPL" none 7 (by decide)).1 (by decide),
    (C2_sentinels lab9 "AAPL" none 7 (by decide)).2 (by decide)⟩

/-- Counterexample to C2 as stated: at index `8 < 9` of `lab9` the `emaGap9`
feature is not `0` (the EMA over 9 closes is defined there). -/
theorem C2_counterexample :
    8 < 9 ∧ 8 < lab9.length ∧
      ((buildFeatures lab9 "AAPL" none).getD 8 default).feats.emaGap9 ≠ 0 := by
  refine ⟨by decide, by decide, ?_⟩
  decide

/-! ## C10 : zero-divisor guard in horizon returns -/

/-- Claim C10: for every horizon `n ∈ {1, 5, 15, 60}`, whenever the reference
close `closes[i-n]` is `0` at an index `i ≥ n`, the horizon-return feature at
`i` is `0` rather than a division by zero (`pctChange` returns `0` when its
divisor is `0`). -/
theorem C10_zero_divisor (l : List LabeledBar15m) (s : String)
    (ctx : Option (ℕ → Option ℚ)) (i : ℕ) (hi : i < l.length) :
    (1 ≤ i → (l.map fun b => b.c).getD (i - 1) 0 = 0 →
        ((buildFeatures l s ctx).getD i default).feats.r1 = 0) ∧
      (5 ≤ i → (l.map fun b => b.c).getD (i - 5) 0 = 0 →
        ((buildFeatures l s ctx).getD i default).feats.r5 = 0) ∧
      (15 ≤ i → (l.map fun b => b.c).getD (i - 15) 0 = 0 →
        ((buildFeatures l s ctx).getD i default).feats.r15 = 0) ∧
      (60 ≤ i → (l.map fun b => b.c).getD (i - 60) 0 = 0 →
        ((buildFeatures l s ctx).getD i default).feats.r60 = 0) := by
  have hlen : (l.take (i + 1)).length = i + 1 := by
    rw [List.length_take]
    omega
  rw [buildFeatures_getD l s ctx i hi]
  refine ⟨fun hn hz => ?_, fun hn hz => ?_, fun hn hz => ?_, fun hn hz => ?_⟩ <;>
  · unfold featAt
    simp only [List.map_take, hlen, Nat.add_sub_cancel, hn, if_true]
    rw [getD_take_of_lt _ _ _ _ (by omega), getD_take_of_lt _ _ _ _ (by omega), hz]
    simp [pctChange]

/-- Witness for C10: on `labZ` (first close `0`), the `r1` feature at index 1
is `0`. -/
theorem C10_witness :
    1 < labZ.length ∧ ((buildFeatures labZ "AAPL" none).getD 1 default).feats.r1 = 0 :=
  ⟨by decide, (C10_zero_divisor labZ "AAPL" none 1 (by decide)).1 (by decide) (by decide)⟩

/-! ## C9 : scorer range -/

/-- Claim C9: for every feature vector, the logistic squashing of the linear
score lies strictly inside `(0, 1)` — it never reaches exactly `0` or
exactly `1`. -/
theorem C9_score_range (f : Feats) :
    0 < sigmoid ((score f : ℚ) : ℝ) ∧ sigmoid ((score f : ℚ) : ℝ) < 1 := by
  unfold sigmoid
  have h : (0 : ℝ) < Real.exp (-((score f : ℚ) : ℝ)) := Real.exp_pos _
  constructor
  · positivity
  · rw [div_lt_one (by positivity)]
    linarith

/-! ## C1 : turnover -/

/-- Claim C1 (amended): the reported turnover is the number of executed
trades divided by `max(trades, 1)` — the code divides by
`stepReturns.length`, which always equals the trade count — so turnover is
`1` whenever any trade executed and `0` otherwise, not
`trades / max(1, totalBarsConsidered)`. -/
theorem C1_turnover_from_trades (symbol : String) (bars15 : List Bar15m)
    (labeled : List LabeledBar15m) (probs : List ℚ) (entryBps exitBps longTh : ℚ) :
    (runMlBacktestFromProbs symbol bars15 labeled probs entryBps exitBps longTh).2.turnover =
      ((runMlBacktestFromProbs symbol bars15 labeled probs entryBps exitBps longTh).1.trades : ℚ) /
        ((max (runMlBacktestFromProbs symbol bars15 labeled probs entryBps exitBps longTh).1.trades 1 : ℕ) : ℚ) := by
  simp [runMlBacktestFromProbs, List.length_map]

/-- Counterexample to C1 as stated: a run that walks 2 bar indices but
executes only 1 trade reports turnover `1`, not
`trades / max(1, totalBarsConsidered) = 1/2`. -/
theorem C1_counterexample :
    (runMlBacktestFromProbs "SPY" bars3 lab3 [9/10, 1/10] 0 0 (1/2)).2.turnover ≠
      ((runMlBacktestFromProbs "SPY" bars3 lab3 [9/10, 1/10] 0 0 (1/2)).1.trades : ℚ) /
        ((max 1 (totalBarsConsidered bars3 lab3.length 2) : ℕ) : ℚ) := by
  decide

/-! ## C3 : configuration validation -/

/-- Claim C3 evaluated at its failing input: with a negative
`entryCostBps = -100` the runner does not reject the run — it executes both
trades and produces a summary whose P&L has absorbed the negative cost as a
bonus (it differs from the run with `entryCostBps = 0`, so the value was not
clamped); with `longThreshold = 3/2` outside `[0,1]` it likewise returns a
summary (zero trades) instead of an error. -/
theorem C3_no_validation :
    (runMlBacktestFromProbs "SPY" bars3 lab3 [9/10, 9/10] (-100) 3 (62/100)).1.trades = 2 ∧
      (runMlBacktestFromProbs "SPY" bars3 lab3 [9/10, 9/10] (-100) 3 (62/100)).1.pnlPct =
        1949409 / 100000000 ∧
      (runMlBacktestFromProbs "SPY" bars3 lab3 [9/10, 9/10] (-100) 3 (62/100)).1.pnlPct ≠
        (runMlBacktestFromProbs "SPY" bars3 lab3 [9/10, 9/10] 0 3 (62/100)).1.pnlPct ∧
      (runMlBacktestFromProbs "SPY" bars3 lab3 [9/10, 9/10] 5 (-50) (3/2)).1.trades = 0 := by
  decide

/-! ## C7 : labeler refinement -/

/-- Unfolding the labeler one bar at a time. -/
theorem makeNext15mLabels_cons (a b : Bar15m) (rest : List Bar15m) :
    makeNext15mLabels (a :: b :: rest) =
      (if isConsecutive15m a b then
        [{ ts15 := a.ts15, o := a.o, h := a.h, l := a.l, c := a.c, v := a.v,
           y := if b.c > a.c then 1 else 0 }]
      else []) ++ makeNext15mLabels (b :: rest) := by
  unfold makeNext15mLabels
  have hlen : (a :: b :: rest).length - 1 = ((b :: rest).length - 1) + 1 := by
    simp
  have hfun : (labelStep (a :: b :: rest)) ∘ Nat.succ = labelStep (b :: rest) := by
    funext i
    simp [labelStep, List.getD_cons_succ]
  rw [hlen, List.range_succ_eq_map, List.filterMap_cons, List.filterMap_map, hfun]
  cases hc : isConsecutive15m a b <;> simp [labelStep, hc]

/-- Claim C7: the labeler equals its reference definition `labelSpec` (for
each adjacent pair exactly one nominal period apart, emit the earlier bar
labeled by whether the later close is strictly greater; skip other pairs;
never emit the final bar; preserve order), and it emits at most `n - 1`
labeled bars for `n` input bars. -/
theorem C7_labeler_matches_spec (bars15 : List Bar15m) :
    makeNext15mLabels bars15 = labelSpec bars15 ∧
      (makeNext15mLabels bars15).length ≤ bars15.length - 1 := by
  constructor
  · induction bars15 with
    | nil => rfl
    | cons a rest ih =>
      cases rest with
      | nil => rfl
      | cons b rest2 =>
        rw [makeNext15mLabels_cons, ih]
        have hrfl : labelSpec (a :: b :: rest2) =
            (if (b.ts15 : ℤ) - (a.ts15 : ℤ) = 15 * 60000 then
              [{ ts15 := a.ts15, o := a.o, h := a.h, l := a.l, c := a.c, v := a.v,
                 y := if b.c > a.c then 1 else 0 }]
            else []) ++ labelSpec (b :: rest2) := rfl
        rw [hrfl]
        by_cases hc : (b.ts15 : ℤ) - (a.ts15 : ℤ) = 15 * 60000 <;>
          simp [isConsecutive15m, hc]
  · unfold makeNext15mLabels
    calc ((List.range (bars15.length - 1)).filterMap _).length
        ≤ (List.range (bars15.length - 1)).length := List.length_filterMap_le _ _
      _ = bars15.length - 1 := List.length_range _

/-! ## C6 : feature-builder causality -/

/-- Claim C6: the feature builder is causal — two labeled-bar sequences that
agree on all bars at indices `≤ i` produce identical feature vectors at every
index `≤ i`; modifying bars after `i` cannot change the features at or
before `i`. -/
theorem C6_causality (l1 l2 : List LabeledBar15m) (s : String)
    (ctx : Option (ℕ → Option ℚ)) (i : ℕ) (h1 : i < l1.length) (h2 : i < l2.length)
    (hpre : l1.take (i + 1) = l2.take (i + 1)) :
    (buildFeatures l1 s ctx).take (i + 1) = (buildFeatures l2 s ctx).take (i + 1) := by
  apply List.ext_getElem?
  intro j
  rcases Nat.lt_or_ge j (i + 1) with hj | hj
  · rw [List.getElem?_take_of_lt hj, List.getElem?_take_of_lt hj]
    unfold buildFeatures
    rw [List.getElem?_map, List.getElem?_map,
      List.getElem?_range (by omega), List.getElem?_range (by omega)]
    have htake : l1.take (j + 1) = l2.take (j + 1) := by
      have hcut := congrArg (List.take (j + 1)) hpre
      rw [List.take_take, List.take_take] at hcut
      rwa [min_eq_left (Nat.succ_le_succ (Nat.le_of_lt_succ hj))] at hcut
    simp [htake]
  · rw [List.getElem?_take_eq_none hj, List.getElem?_take_eq_none hj]

/-- Witness for C6: two 10-bar sequences that differ only in their final bar
get identical feature vectors at indices `0..8`. -/
theorem C6_witness :
    lab9a.take 9 = lab9b.take 9 ∧ lab9a ≠ lab9b ∧
      (buildFeatures lab9a "AAPL" none).take 9 =
        (buildFeatures lab9b "AAPL" none).take 9 :=
  ⟨by decide, by decide,
    C6_causality lab9a lab9b "AAPL" none 8 (by decide) (by decide) (by decide)⟩

/-! ## Equity-curve lemmas -/

/-- The equity sequence has one entry per return. -/
theorem equitySeq_length (s : ℚ) (rs : List ℚ) :
    (equitySeq s rs).length = rs.length := by
  induction rs generalizing s with
  | nil => rfl
  | cons r rest ih => simp [equitySeq, ih]

/-- Reading a list back off by index is the identity. -/
theorem range_map_getD (l : List ℚ) :
    (List.range l.length).map (fun i => l.getD i 0) = l := by
  apply List.ext_getElem
  · simp
  · intro i h1 h2
    simp [List.getD_eq_getElem?_getD, List.getElem?_eq_getElem h2]

/-- The equity components of the curve are exactly `equitySeq`. -/
theorem curve_snd (ts : List ℕ) (rs : List ℚ) (s : ℚ) :
    (buildEquityCurve ts rs s).map (fun p => p.2) = equitySeq s rs := by
  unfold buildEquityCurve
  rw [List.map_map]
  have hlen : rs.length = (equitySeq s rs).length := (equitySeq_length s rs).symm
  rw [hlen]
  exact range_map_getD (equitySeq s rs)

/-- The final equity is the compounded product of `1 + r` over the returns
(and the start equity when there are no returns). -/
theorem equitySeq_getLast (s : ℚ) (rs : List ℚ) :
    ((equitySeq s rs).getLast?).getD s = s * (rs.map fun r => 1 + r).prod := by
  induction rs generalizing s with
  | nil => simp [equitySeq]
  | cons r rest ih =>
    show ((s * (1 + r) :: equitySeq (s * (1 + r)) rest).getLast?).getD s = _
    rw [List.getLast?_cons, Option.getD_some, ih (s * (1 + r))]
    simp [mul_assoc]

/-- The reported P&L fraction is the compounded product of the per-trade
growth factors, minus one. -/
theorem pnlPct_eq_prod (symbol : String) (bars15 : List Bar15m)
    (labeled : List LabeledBar15m) (probs : List ℚ) (entryBps exitBps longTh : ℚ) :
    (runMlBacktestFromProbs symbol bars15 labeled probs entryBps exitBps longTh).1.pnlPct =
      ((tradeIdx bars15 labeled probs longTh).map
        (fun i => 1 + stepReturn bars15 entryBps exitBps i)).prod - 1 := by
  unfold runMlBacktestFromProbs
  have hmatch : ∀ curve : List (ℕ × ℚ),
      (match curve.getLast? with
        | some p => p.2
        | none => (1 : ℚ)) = ((curve.map fun p => p.2).getLast?).getD 1 := by
    intro curve
    rw [List.getLast?_map]
    cases curve.getLast? <;> rfl
  simp only [hmatch, curve_snd, equitySeq_getLast, one_mul, List.map_map]
  rfl

/-- Pointwise bounds `0 ≤ g ≤ f` over a list give a product inequality. -/
theorem list_prod_mono (l : List ℕ) (f g : ℕ → ℚ) (h0 : ∀ i ∈ l, 0 ≤ g i)
    (hle : ∀ i ∈ l, g i ≤ f i) : (l.map g).prod ≤ (l.map f).prod := by
  induction l with
  | nil => simp
  | cons a t ih =>
    simp only [List.map_cons, List.prod_cons]
    have hg : 0 ≤ (t.map g).prod :=
      List.prod_nonneg (by
        intro x hx
        obtain ⟨i, hi, rfl⟩ := List.mem_map.mp hx
        exact h0 i (List.mem_cons_of_mem a hi))
    have ha0 : 0 ≤ g a := h0 a (List.mem_cons_self a t)
    exact mul_le_mul (hle a (List.mem_cons_self a t))
      (ih (fun i hi => h0 i (List.mem_cons_of_mem a hi))
        (fun i hi => hle i (List.mem_cons_of_mem a hi)))
      hg (le_trans ha0 (hle a (List.mem_cons_self a t)))

/-! ## C5 : cost monotonicity -/

/-- Claim C5 (amended): with bars, labels, probabilities, exit cost and
threshold fixed (so the executed trades are fixed), raising `entryCostBps`
from `e1` to `e2` never raises the reported `pnlPct` — provided every
per-trade net return at the higher cost is still at least `-100 %` (each
equity growth factor stays non-negative).  Without that proviso the claim is
false: see the counterexample, where an entry cost above 100 % makes equity
factors negative and a further cost increase raises the product. -/
theorem C5_cost_monotonic (symbol : String) (bars15 : List Bar15m)
    (labeled : List LabeledBar15m) (probs : List ℚ) (exitBps longTh e1 e2 : ℚ)
    (h0 : 0 ≤ e1) (h12 : e1 ≤ e2)
    (hsafe : ∀ i ∈ tradeIdx bars15 labeled probs longTh,
      -1 ≤ stepReturn bars15 e2 exitBps i) :
    (runMlBacktestFromProbs symbol bars15 labeled probs e2 exitBps longTh).1.pnlPct ≤
      (runMlBacktestFromProbs symbol bars15 labeled probs e1 exitBps longTh).1.pnlPct := by
  rw [pnlPct_eq_prod, pnlPct_eq_prod]
  have hmono := list_prod_mono (tradeIdx bars15 labeled probs longTh)
    (fun i => 1 + stepReturn bars15 e1 exitBps i)
    (fun i => 1 + stepReturn bars15 e2 exitBps i)
    (fun i hi => by
      have := hsafe i hi
      show (0 : ℚ) ≤ 1 + stepReturn bars15 e2 exitBps i
      linarith)
    (fun i hi => by
      show 1 + stepReturn bars15 e2 exitBps i ≤ 1 + stepReturn bars15 e1 exitBps i
      simp only [stepReturn, applyPerSideCosts, bps]
      linarith)
  linarith

/-- Witness for C5: on `bars3` with realistic costs `1 ≤ 2` bps the P&L is
monotone as claimed. -/
theorem C5_witness :
    (0 : ℚ) ≤ 1 ∧ (1 : ℚ) ≤ 2 ∧
      (runMlBacktestFromProbs "SPY" bars3 lab3 [9/10, 9/10] 2 0 (1/2)).1.pnlPct ≤
        (runMlBacktestFromProbs "SPY" bars3 lab3 [9/10, 9/10] 1 0 (1/2)).1.pnlPct :=
  ⟨by norm_num, by norm_num,
    C5_cost_monotonic "SPY" bars3 lab3 [9/10, 9/10] 0 (1/2) 1 2
      (by norm_num) (by norm_num) (by decide)⟩

/-- Counterexample to C5 as stated: raising the non-negative entry cost from
15000 bps to 25000 bps strictly raises the reported `pnlPct` (two trades with
gross return `0`: equity factors `(-1/2)² = 1/4` versus `(-3/2)² = 9/4`). -/
theorem C5_counterexample :
    (0 : ℚ) ≤ 15000 ∧ (15000 : ℚ) ≤ 25000 ∧
      (runMlBacktestFromProbs "SPY" bars3 lab3 [9/10, 9/10] 25000 0 (1/2)).1.pnlPct >
        (runMlBacktestFromProbs "SPY" bars3 lab3 [9/10, 9/10] 15000 0 (1/2)).1.pnlPct := by
  refine ⟨by norm_num, by norm_num, ?_⟩
  decide

/-! ## C8 : max drawdown bounds -/

/-- The running maximum drawdown never decreases along the fold. -/
theorem mdd_foldl_mono (l : List ℚ) : ∀ st : Option ℚ × ℚ,
    st.2 ≤ (l.foldl mddStep st).2 := by
  induction l with
  | nil => intro st; exact le_refl _
  | cons e t ih =>
    intro st
    refine le_trans ?_ (ih (mddStep st e))
    unfold mddStep
    dsimp only
    split <;> [linarith; exact le_refl _]

/-- Over positive equity values, the running drawdown stays at most `1`. -/
theorem mdd_foldl_le_one (l : List ℚ) : ∀ (p m : ℚ), 0 < p → m ≤ 1 →
    (∀ e ∈ l, 0 < e) → ((l.foldl mddStep (some p, m)).2) ≤ 1 := by
  induction l with
  | nil =>
    intro p m _ hm _
    exact hm
  | cons e t ih =>
    intro p m hp hm hall
    have he : 0 < e := hall e (List.mem_cons_self e t)
    have hkey : ∃ p2 m2, mddStep (some p, m) e = (some p2, m2) ∧ 0 < p2 ∧ m2 ≤ 1 := by
      unfold mddStep
      dsimp only
      by_cases hpe : e > p
      · refine ⟨e, _, by rw [if_pos hpe], he, ?_⟩
        rw [sub_self, zero_div]
        split <;> linarith
      · refine ⟨p, _, by rw [if_neg hpe], hp, ?_⟩
        have hdd : (p - e) / p < 1 := by
          rw [div_lt_one hp]
          linarith
        split <;> linarith
    obtain ⟨p2, m2, heq, hp2, hm2⟩ := hkey
    rw [List.foldl_cons, heq]
    exact ih p2 m2 hp2 hm2 fun x hx => hall x (List.mem_cons_of_mem e hx)

/-- Along a strictly increasing tail above the running peak, the drawdown
stays `0`. -/
theorem mdd_foldl_chain (l : List ℚ) : ∀ p : ℚ, List.Chain (· < ·) p l →
    ((l.foldl mddStep (some p, 0)).2) = 0 := by
  induction l with
  | nil =>
    intro p _
    rfl
  | cons e t ih =>
    intro p hch
    rw [List.chain_cons] at hch
    have hstep : mddStep (some p, 0) e = (some e, 0) := by
      unfold mddStep
      dsimp only
      rw [if_pos hch.1, sub_self, zero_div]
      simp
    rw [List.foldl_cons, hstep]
    exact ih e hch.2

/-- The first element always becomes the peak, with drawdown `0`. -/
theorem mddStep_none (e : ℚ) : mddStep (none, 0) e = (some e, 0) := by
  unfold mddStep
  dsimp only
  rw [sub_self, zero_div]
  simp

/-- Claim C8 (amended): `maxDrawdown` is always non-negative; it is at most
`1` whenever every equity value is positive (which holds whenever every
per-trade net return exceeds `-100 %`); and it is `0` on every strictly
increasing curve.  Without the positivity proviso the upper bound is false
on curves the backtest can produce: see the counterexample, where equity
goes negative and `maxDrawdown` is `3`. -/
theorem C8_drawdown_bounds (equity : List ℚ) :
    0 ≤ maxDrawdown equity ∧
      ((∀ e ∈ equity, 0 < e) → maxDrawdown equity ≤ 1) ∧
      (equity.Chain' (· < ·) → maxDrawdown equity = 0) := by
  refine ⟨?_, ?_, ?_⟩
  · simpa [maxDrawdown] using mdd_foldl_mono equity (none, 0)
  · intro hall
    cases equity with
    | nil => norm_num [maxDrawdown]
    | cons e t =>
      have he := hall e (List.mem_cons_self e t)
      unfold maxDrawdown
      rw [List.foldl_cons, mddStep_none]
      exact mdd_foldl_le_one t e 0 he (by norm_num)
        fun x hx => hall x (List.mem_cons_of_mem e hx)
  · intro hch
    cases equity with
    | nil => rfl
    | cons e t =>
      unfold maxDrawdown
      rw [List.foldl_cons, mddStep_none]
      exact mdd_foldl_chain t e hch

/-- Witness for C8: on the positive, strictly increasing curve `[1, 2]` all
three amended bounds hold. -/
theorem C8_witness :
    (∀ e ∈ [(1 : ℚ), 2], 0 < e) ∧ List.Chain' (· < ·) [(1 : ℚ), 2] ∧
      0 ≤ maxDrawdown [(1 : ℚ), 2] ∧ maxDrawdown [(1 : ℚ), 2] ≤ 1 ∧
      maxDrawdown [(1 : ℚ), 2] = 0 :=
  ⟨by decide, by norm_num [List.chain'_cons], (C8_drawdown_bounds [(1 : ℚ), 2]).1,
    (C8_drawdown_bounds [(1 : ℚ), 2]).2.1 (by decide),
    (C8_drawdown_bounds [(1 : ℚ), 2]).2.2 (by norm_num [List.chain'_cons])⟩

/-- Counterexample to C8 as stated: a backtest run with entry cost 20000 bps
over closes `1, 3, 0` produces the equity curve `[1, -2]`, whose reported
`maxDd` is `3`, outside `[0, 1]`. -/
theorem C8_counterexample :
    (runMlBacktestFromProbs "SPY" barsDd labDd [9/10, 9/10] 20000 0 (1/2)).2.maxDd = 3 ∧
      ¬((runMlBacktestFromProbs "SPY" barsDd labDd
          [9/10, 9/10] 20000 0 (1/2)).2.maxDd ≤ 1) := by
  decide

/-! ## C4 : aggregation idempotence -/

/-- Every bucket key is a multiple of 15 minutes (900000 ms). -/
theorem bucketClose15_mod (ts : ℕ) : bucketClose15 ts % 900000 = 0 := by
  unfold bucketClose15 floorToNMinutesUTC
  omega

/-- On a timestamp already aligned to a 15-minute boundary, the bucket key is
one full period later: an aggregated bar re-enters the aggregator in the
NEXT window, not its own. -/
theorem bucketClose15_aligned {ts : ℕ} (h : ts % 900000 = 0) :
    bucketClose15 ts = ts + 900000 := by
  unfold bucketClose15 floorToNMinutesUTC
  omega

section

/- `bucketClose15` contains `Nat` division, whose well-founded unfolding
sends the unifier into deep reduction; the lemmas below only reason about it
abstractly, so hide its body from elaboration here. -/
attribute [local irreducible] bucketClose15

/-- The window-close keys of the aggregator's output are its bucket keys. -/
theorem aggregateTo15m_map_ts15 (minBars : List Bar1m) :
    (aggregateTo15m minBars).map (fun b => b.ts15) = aggKeys minBars := by
  unfold aggregateTo15m
  rw [List.map_map]
  exact List.map_id _ ▸ List.map_congr_left fun k _ => rfl

/-- The bucket keys are sorted ascending. -/
theorem aggKeys_sorted (minBars : List Bar1m) :
    (aggKeys minBars).Sorted (· ≤ ·) :=
  List.sorted_insertionSort _ _

/-- The bucket keys are distinct. -/
theorem aggKeys_nodup (minBars : List Bar1m) :
    (aggKeys minBars).Nodup :=
  ((List.perm_insertionSort _ _).nodup_iff).mpr
    (List.nodup_dedup _)

/-- Each bucket key is a multiple of the period. -/
theorem aggKeys_mod (minBars : List Bar1m) :
    ∀ k ∈ aggKeys minBars, k % 900000 = 0 := by
  intro k hk
  unfold aggKeys at hk
  rw [List.mem_insertionSort, List.mem_dedup, List.mem_map] at hk
  obtain ⟨mb, _, rfl⟩ := hk
  exact bucketClose15_mod mb.ts

/-- When all bucket keys of a list are distinct, each bar's bucket is the
singleton holding just that bar. -/
theorem filter_bucket_singleton :
    ∀ L : List Bar1m, (L.map fun mb => bucketClose15 mb.ts).Nodup → ∀ x ∈ L,
      L.filter (fun y => bucketClose15 y.ts = bucketClose15 x.ts) = [x] := by
  intro L
  induction L with
  | nil => intro _ x hx; exact absurd hx (List.not_mem_nil x)
  | cons a t ih =>
    intro hnd x hx
    rw [List.map_cons, List.nodup_cons] at hnd
    rcases List.mem_cons.mp hx with rfl | hxt
    · rw [List.filter_cons_of_pos (by simp)]
      have hnil : t.filter (fun y => bucketClose15 y.ts = bucketClose15 x.ts) = [] := by
        apply List.filter_eq_nil_iff.mpr
        intro y hy
        simp only [decide_eq_true_eq]
        intro hee
        exact hnd.1 (hee ▸ List.mem_map_of_mem (fun mb => bucketClose15 mb.ts) hy)
      rw [hnil]
    · rw [List.filter_cons_of_neg (by
        simp only [decide_eq_true_eq]
        intro hee
        exact hnd.1 (hee ▸ List.mem_map_of_mem (fun mb => bucketClose15 mb.ts) hxt))]
      exact ih hnd.2 x hxt

/-- Folding a singleton bucket reproduces the bar's OHLCV at the bucket
key. -/
theorem aggBar_of_singleton (minBars : List Bar1m) (k : ℕ) (x : Bar1m)
    (h : minBars.filter (fun mb => bucketClose15 mb.ts = k) = [x]) :
    aggBar minBars k =
      { ts15 := k, o := x.o, h := x.h, l := x.l, c := x.c, v := x.v } := by
  unfold aggBar
  rw [h]
  simp [List.insertionSort, List.orderedInsert, listMaxD, listMinD]

/-- Claim C4 (amended): feeding the aggregator's output back into the
aggregator at the same 15-minute period does not return the same bars;
instead it returns the same OHLCV values in the same order with every
window-close key shifted forward by exactly one period (because an output
key is already aligned to a 15-minute boundary, so it is floored to itself
and one period is added again).  No bar is duplicated or resplit. -/
theorem C4_reaggregation_shifts (minBars : List Bar1m) :
    aggregateTo15m ((aggregateTo15m minBars).map asBar1m) =
      (aggregateTo15m minBars).map shiftPeriod := by
  set out := aggregateTo15m minBars with hout
  have houtts : out.map (fun b => b.ts15) = aggKeys minBars :=
    aggregateTo15m_map_ts15 minBars
  have hmod : ∀ b ∈ out, b.ts15 % 900000 = 0 := by
    intro b hb
    exact aggKeys_mod minBars _
      (houtts ▸ List.mem_map_of_mem (fun b => b.ts15) hb)
  have hnodup : (out.map fun b => b.ts15).Nodup := by
    rw [houtts]
    exact aggKeys_nodup minBars
  have hsorted : (out.map fun b => b.ts15).Sorted (· ≤ ·) := by
    rw [houtts]
    exact aggKeys_sorted minBars
  have hinkeys : (out.map asBar1m).map (fun mb => bucketClose15 mb.ts) =
      out.map (fun b => b.ts15 + 900000) := by
    rw [List.map_map]
    exact List.map_congr_left fun b hb => bucketClose15_aligned (hmod b hb)
  have hshift : out.map (fun b => b.ts15 + 900000) =
      (out.map fun b => b.ts15).map (fun t => t + 900000) := by
    rw [List.map_map]
    rfl
  have hnodup2 : (out.map (fun b => b.ts15 + 900000)).Nodup := by
    rw [hshift]
    exact hnodup.map (fun a b hab => by omega)
  have hsorted2 : (out.map (fun b => b.ts15 + 900000)).Sorted (· ≤ ·) := by
    rw [hshift]
    exact List.Pairwise.map (fun t => t + 900000)
      (fun a b hab => by
        show a + 900000 ≤ b + 900000
        omega) hsorted
  have hkeys2 : aggKeys (out.map asBar1m) = out.map (fun b => b.ts15 + 900000) := by
    unfold aggKeys
    rw [hinkeys, List.dedup_eq_self.mpr hnodup2]
    exact List.Sorted.insertionSort_eq hsorted2
  show (aggKeys (out.map asBar1m)).map (aggBar (out.map asBar1m)) =
    out.map shiftPeriod
  rw [hkeys2, List.map_map]
  apply List.map_congr_left
  intro b hb
  have hnodupf : ((out.map asBar1m).map (fun mb => bucketClose15 mb.ts)).Nodup := by
    rw [hinkeys]
    exact hnodup2
  have hsing := filter_bucket_singleton (out.map asBar1m) hnodupf (asBar1m b)
    (List.mem_map_of_mem _ hb)
  have hkey : bucketClose15 (asBar1m b).ts = b.ts15 + 900000 :=
    bucketClose15_aligned (hmod b hb)
  rw [hkey] at hsing
  show aggBar (out.map asBar1m) (b.ts15 + 900000) = shiftPeriod b
  rw [aggBar_of_singleton (out.map asBar1m) (b.ts15 + 900000) (asBar1m b) hsing]
  rfl

end

/-- Counterexample to C4 as stated: re-aggregating the aggregate of a single
minute bar does not return the same bars (the window-close key moves from
900000 to 1800000). -/
theorem C4_counterexample :
    aggregateTo15m ((aggregateTo15m mb0).map asBar1m) ≠ aggregateTo15m mb0 := by
  decide

end Trading
